import Mathlib

/-!
# Verification of the statement-ingestion pipeline of `src/app.py`

Shallow embedding of the CSV/PDF statement pipeline:

* `parse_pdf` (app.py lines 201-211): whitespace tokenisation of extracted
  text lines into `{date, description, amount}` records;
* `calculate_ending_balance` (lines 122-123): `sum(float(s['amount']) ...)`;
* `save_statements_as_csv` (lines 111-120): `csv.DictWriter` with the first
  record's keys as header, all exceptions caught and logged;
* `read_statements_from_csv` (lines 99-109): `open(path, mode='r')` (text
  mode with universal-newline translation) + `csv.DictReader`, all
  exceptions caught, returning `[]` on failure.

Texts are modelled as `List Char`; a record is an association list of
fields (Python 3.7+ dicts preserve insertion order, and every dict built by
this program has distinct keys).  Python `float` values are modelled as
exact rationals: every amount occurring in the claims is a short decimal
literal, and both sides of every aggregation equation use the same
operations in the same order, so no binary-rounding discrepancy can arise.
-/

/-- Field names and field values are raw character lists (Python `str`). -/
abbrev PyStr : Type := List Char

/-- One statement record: an insertion-ordered association list, as built by
`{'date': ..., 'description': ..., 'amount': ...}` or by `csv.DictReader`. -/
abbrev Record : Type := List (PyStr × PyStr)

/-- Characters of a Lean string literal, used to write concrete inputs. -/
def str (s : String) : List Char := s.data

/-! ## Line parser (`parse_pdf`, app.py lines 206-211) -/

/-- ASCII whitespace recognised by Python `str.split()` with no argument
(space, tab, newline, carriage return, vertical tab, form feed). -/
def isPySpace (c : Char) : Bool :=
  c = ' ' ∨ c = '\t' ∨ c = '\n' ∨ c = '\r' ∨ c = '\x0b' ∨ c = '\x0c'

/-- Worker for `pySplit`: `acc` holds the current token reversed. -/
def pySplitAux (acc : List Char) : List Char → List (List Char)
  | [] => if acc.isEmpty then [] else [acc.reverse]
  | c :: rest =>
      if isPySpace c then
        if acc.isEmpty then pySplitAux [] rest
        else acc.reverse :: pySplitAux [] rest
      else pySplitAux (c :: acc) rest

/-- Python `line.split()`: split on runs of whitespace, dropping empty
tokens. -/
def pySplit (line : List Char) : List (List Char) :=
  pySplitAux [] line

/-- Python `text.split('\n')`: split at every newline, keeping empty
pieces (`''.split('\n') == ['']`). -/
def splitOnNL : List Char → List (List Char)
  | [] => [[]]
  | c :: rest =>
      if c = '\n' then [] :: splitOnNL rest
      else
        match splitOnNL rest with
        | [] => [[c]]
        | l :: ls => (c :: l) :: ls

/-- The loop body of `parse_pdf` for one line (app.py lines 207-210):
`parts = line.split(); if len(parts) >= 3:` build the record from
`parts[0]`, `" ".join(parts[1:-1])`, `parts[-1]`; otherwise no record. -/
def parse_line (line : List Char) : Option Record :=
  let parts := pySplit line
  if 3 ≤ parts.length then
    some [(str "date", parts.headD []),
          (str "description", List.intercalate [' '] (parts.drop 1).dropLast),
          (str "amount", parts.getLastD [])]
  else
    none

/-- `parse_pdf` (app.py lines 201-211) after text extraction: the pages'
extracted texts are the input (pdfplumber is an external collaborator).
Each page's text is split at newlines and every line with at least three
whitespace tokens contributes one record, in order, across all pages. -/
def parse_pdf (pages : List (List Char)) : List Record :=
  (pages.map (fun text => (splitOnNL text).filterMap parse_line)).flatten

/-! ## Aggregator (`calculate_ending_balance`, app.py lines 122-123)

Python `float(s)` on a finite decimal literal, modelled exactly over `ℚ`:
optional surrounding whitespace, optional sign, then digits with an
optional fractional part and an optional decimal exponent, with at least
one digit overall.  (`inf`/`nan`/underscore separators are outside the
model; no claim involves them.) -/

/-- Split off the longest prefix of decimal digits. -/
def takeDigits (s : List Char) : List Char × List Char :=
  (s.takeWhile Char.isDigit, s.dropWhile Char.isDigit)

/-- Parse an optional sign, returning `(sign, rest)`. -/
def readSign : List Char → ℚ × List Char
  | '+' :: rest => (1, rest)
  | '-' :: rest => (-1, rest)
  | s => (1, s)

/-- Digit list to a natural number value. -/
def digitsVal (ds : List Char) : Nat :=
  ds.foldl (fun v c => v * 10 + (c.toNat - '0'.toNat)) 0

/-- The mantissa `intPart [. [fracPart]]` of a float literal: its exact
rational value, provided at least one digit is present. -/
def readMantissa (s : List Char) : Option (ℚ × List Char) :=
  let (ip, rest) := takeDigits s
  match rest with
  | '.' :: rest2 =>
      let (fp, rest3) := takeDigits rest2
      if ip.isEmpty ∧ fp.isEmpty then none
      else some ((digitsVal ip : ℚ) + (digitsVal fp : ℚ) / ((10 : ℚ) ^ fp.length), rest3)
  | _ =>
      if ip.isEmpty then none
      else some ((digitsVal ip : ℚ), rest)

/-- Python `float(s)` for finite decimal literals, as an exact rational;
`none` where `float` raises `ValueError`. -/
def pyFloat (s : List Char) : Option ℚ :=
  let s1 := (s.dropWhile isPySpace).reverse.dropWhile isPySpace |>.reverse
  let (sign, s2) := readSign s1
  match readMantissa s2 with
  | none => none
  | some (m, rest) =>
      match rest with
      | [] => some (sign * m)
      | c :: rest2 =>
          if c = 'e' ∨ c = 'E' then
            let (es, rest3) := readSign rest2
            let (ds, rest4) := takeDigits rest3
            if ds.isEmpty ∨ ¬rest4.isEmpty then none
            else if es = 1 then some (sign * m * (10 : ℚ) ^ digitsVal ds)
            else some (sign * m / (10 : ℚ) ^ digitsVal ds)
          else none

/-- `calculate_ending_balance` (app.py lines 122-123):
`sum(float(statement['amount']) for statement in statements)`.  `sum`
consumes the generator left to right starting from `0`; the first record
whose `'amount'` lookup or `float` conversion fails raises (`KeyError`
resp. `ValueError`), modelled as `none`, and the exception propagates. -/
def calculate_ending_balance : List Record → Option ℚ
  | [] => some 0
  | s :: rest =>
      ((s.lookup (str "amount")).bind pyFloat).bind fun q =>
        (calculate_ending_balance rest).map fun t => q + t

/-! ## CSV writer (`save_statements_as_csv`, app.py lines 111-120)

`csv.DictWriter(file, fieldnames=keys)` with the default dialect: delimiter
`,`, quotechar `"`, `QUOTE_MINIMAL`, line terminator `\r\n`. -/

/-- `QUOTE_MINIMAL`: a field is quoted iff it contains the delimiter, the
quote character, or a line-terminator character. -/
def needsQuoting (f : PyStr) : Bool :=
  f.any (fun c => c = ',' ∨ c = '"' ∨ c = '\r' ∨ c = '\n')

/-- Double every quote character (the csv escape inside a quoted field). -/
def escapeQuotes : PyStr → PyStr
  | [] => []
  | c :: rest => if c = '"' then '"' :: '"' :: escapeQuotes rest else c :: escapeQuotes rest

/-- One serialised field. -/
def quoteField (f : PyStr) : PyStr :=
  if needsQuoting f then '"' :: (escapeQuotes f ++ ['"']) else f

/-- One serialised row, `\r\n`-terminated.  A row consisting of a single
empty field is written `""` so it is not mistaken for a blank line. -/
def writeRow (fields : List PyStr) : List Char :=
  if fields = [[]] then str "\"\"\r\n"
  else List.intercalate [','] (fields.map quoteField) ++ ['\r', '\n']

/-- `DictWriter._dict_to_list`: values in header order; a key absent from
the record falls back to `restval` (`None`, written as the empty string). -/
def dict_to_list (keys : List PyStr) (r : Record) : List PyStr :=
  keys.map (fun k => (r.lookup k).getD [])

/-- Does `r` own a key outside `keys`?  `DictWriter` then raises
`ValueError` ("dict contains fields not in fieldnames"). -/
def hasExtraKey (keys : List PyStr) (r : Record) : Bool :=
  r.any (fun kv => !keys.contains kv.1)

/-- `writer.writerows(statements)`: the rows written before the first
record with a stray key, plus the `ValueError` raised there, if any. -/
def writeRowsUntilError (keys : List PyStr) : List Record → List Char × Option PyStr
  | [] => ([], none)
  | r :: rs =>
      if hasExtraKey keys r then ([], some (str "ValueError"))
      else
        let (rest, err) := writeRowsUntilError keys rs
        (writeRow (dict_to_list keys r) ++ rest, err)

/-- Outcome of one `save_statements_as_csv` call: the file content left on
disk (if the file was opened at all), the exception caught and logged by
the `except` clause, and the exception escaping to the caller. -/
structure SaveResult where
  file : Option (List Char)
  logged : Option PyStr
  propagated : Option PyStr
  deriving Repr, DecidableEq

/-- `save_statements_as_csv` (app.py lines 111-120).  `statements[0].keys()`
raises `IndexError` on an empty list before the file is opened, so no file
appears; otherwise the header row (the first record's keys, in insertion
order) is written, then data rows until `writerows` raises; the `with`
block flushes whatever was written.  The enclosing `try`/`except Exception`
catches every exception and only logs it, so nothing ever propagates. -/
def save_statements_as_csv (statements : List Record) : SaveResult :=
  match statements with
  | [] => { file := none, logged := some (str "IndexError"), propagated := none }
  | first :: _ =>
      let keys := first.map Prod.fst
      let (rows, err) := writeRowsUntilError keys statements
      { file := some (writeRow keys ++ rows), logged := err, propagated := none }

/-! ## CSV reader (`read_statements_from_csv`, app.py lines 99-109)

The file is opened with `mode='r'` and no `newline=''`, so the text layer
applies universal-newline translation (`\r\n` and lone `\r` both become
`\n`) before `csv.reader` sees the characters — including inside quoted
fields, which is why round-tripping loses carriage returns. -/

/-- Universal-newline translation of Python text mode. -/
def univNewlines : List Char → List Char
  | '\r' :: '\n' :: rest => '\n' :: univNewlines rest
  | '\r' :: rest => '\n' :: univNewlines rest
  | c :: rest => c :: univNewlines rest
  | [] => []

/-- The csv reader state machine (default dialect, non-strict), on text in
which `\n` is the only line break.  `inQuote`: inside a quoted field;
`started`: the current row has consumed at least one character (a blank
line yields no row); `acc`: current field, reversed; `fields`: completed
fields of the current row, reversed. -/
def csvParseAux : Bool → Bool → List Char → List (List Char) → List Char →
    List (List (List Char))
  | _, started, acc, fields, [] =>
      if started then [(acc.reverse :: fields).reverse] else []
  | true, _, acc, fields, '"' :: '"' :: rest => csvParseAux true true ('"' :: acc) fields rest
  | true, _, acc, fields, '"' :: rest => csvParseAux false true acc fields rest
  | true, _, acc, fields, c :: rest => csvParseAux true true (c :: acc) fields rest
  | false, started, acc, fields, c :: rest =>
      if c = ',' then csvParseAux false true [] (acc.reverse :: fields) rest
      else if c = '\n' then
        (if started then [(acc.reverse :: fields).reverse] else []) ++
          csvParseAux false false [] [] rest
      else if c = '"' ∧ acc = [] then csvParseAux true true acc fields rest
      else csvParseAux false true (c :: acc) fields rest

/-- `csv.reader` over a whole translated file. -/
def csvParse (content : List Char) : List (List (List Char)) :=
  csvParseAux false false [] [] content

/-- `csv.DictReader`: the first row gives the fieldnames; later blank rows
(empty lines) are skipped; every other row is zipped with the fieldnames.
(A longer row collects extras under `restkey`, a shorter one fills the
missing fields with `restval = None`; neither arises for files this
program writes, and the model truncates at the shorter list.) -/
def dictRead (content : List Char) : List Record :=
  match csvParse content with
  | [] => []
  | header :: rows =>
      (rows.filter (fun r => !r.isEmpty)).map (fun row => header.zip row)

/-- `read_statements_from_csv` (app.py lines 99-109).  The file system is
modelled as the `Option` content at the path; `none` (missing or unreadable
file) makes `open` raise, the `except` clause logs and returns `[]`. -/
def read_statements_from_csv (file : Option (List Char)) : List Record :=
  match file with
  | none => []
  | some content => dictRead (univNewlines content)

/-! ## Theorems about the line parser -/

/-- **C1.** For every text line with at least 3 whitespace-delimited
tokens, parsing is total and deterministic (`parse_line` is a function and
returns `some`), and the record's `date` is the first token, its `amount`
the last token, and its `description` the in-between tokens rejoined with
single spaces; no date or amount format is validated at parse time. -/
theorem parse_line_three_tokens (line : List Char)
    (h : 3 ≤ (pySplit line).length) :
    parse_line line =
      some [(str "date", (pySplit line).headD []),
            (str "description",
              List.intercalate [' '] ((pySplit line).drop 1).dropLast),
            (str "amount", (pySplit line).getLastD [])] := by
  simp [parse_line, h]

/-- Witness for C1 at the spec's own example `"INVALID LINE DATA"`: three
tokens, parsed without error into a record whose `amount` is `"DATA"`. -/
theorem parse_line_three_tokens_witness :
    3 ≤ (pySplit (str "INVALID LINE DATA")).length ∧
    parse_line (str "INVALID LINE DATA") =
      some [(str "date", str "INVALID"), (str "description", str "LINE"),
            (str "amount", str "DATA")] :=
  ⟨by decide,
   (parse_line_three_tokens (str "INVALID LINE DATA") (by decide)).trans (by decide)⟩

/-! ## Theorems about the aggregator -/

/-- **C3.** Aggregating the empty sequence returns exactly `0` (the
additive identity), not an error; and on every sequence whose `amount`
fields all coerce, the aggregator returns exactly the sum of the coerced
amounts. -/
theorem calculate_ending_balance_sum :
    calculate_ending_balance [] = some 0 ∧
    ∀ statements : List Record,
      (∀ s ∈ statements, ((s.lookup (str "amount")).bind pyFloat).isSome) →
      calculate_ending_balance statements =
        some ((statements.map fun s =>
          ((s.lookup (str "amount")).bind pyFloat).getD 0).sum) := by
  refine ⟨rfl, ?_⟩
  intro statements h
  induction statements with
  | nil => simp [calculate_ending_balance]
  | cons s rest ih =>
      obtain ⟨q, hq⟩ := Option.isSome_iff_exists.mp (h s (by simp))
      rw [calculate_ending_balance, hq, ih (fun t ht => h t (by simp [ht]))]
      simp [hq]

/-- Witness for C3: the two well-formed records of the spec's scenario sum
to `1504.50`. -/
theorem calculate_ending_balance_sum_witness :
    calculate_ending_balance
        [[(str "date", str "2024-01-01"), (str "description", str "Coffee Shop"),
          (str "amount", str "4.50")],
         [(str "date", str "2024-01-02"), (str "description", str "Paycheck"),
          (str "amount", str "1500.00")]] = some (3009 / 2) := by
  rw [calculate_ending_balance_sum.2 _ (by decide)]
  have e1 : ((List.lookup (str "amount")
      [(str "date", str "2024-01-01"), (str "description", str "Coffee Shop"),
       (str "amount", str "4.50")]).bind pyFloat) = some (4 + 50 / 10 ^ 2 : ℚ) := by
    with_unfolding_all rfl
  have e2 : ((List.lookup (str "amount")
      [(str "date", str "2024-01-02"), (str "description", str "Paycheck"),
       (str "amount", str "1500.00")]).bind pyFloat) = some (1500 + 0 / 10 ^ 2 : ℚ) := by
    with_unfolding_all rfl
  simp only [List.map_cons, List.map_nil, e1, e2, Option.getD_some, List.sum_cons,
    List.sum_nil]
  norm_num

/-- **C4.** If any record's `amount` cannot be coerced to a number, the
whole aggregation fails (the `ValueError` propagates) rather than
returning a partial sum over the remaining records. -/
theorem calculate_ending_balance_bad_amount (statements : List Record)
    (s : Record) (hs : s ∈ statements) (a : PyStr)
    (ha : s.lookup (str "amount") = some a) (hbad : pyFloat a = none) :
    calculate_ending_balance statements = none := by
  induction statements with
  | nil => cases hs
  | cons t rest ih =>
      rcases List.mem_cons.mp hs with rfl | hmem
      · simp [calculate_ending_balance, ha, hbad]
      · cases hb : (t.lookup (str "amount")).bind pyFloat with
        | none => simp [calculate_ending_balance, hb]
        | some q => simp [calculate_ending_balance, hb, ih hmem]

/-- Witness for C4: a sequence containing one record with
`amount = "DATA"` aggregates to an error, not a partial sum. -/
theorem calculate_ending_balance_bad_amount_witness :
    calculate_ending_balance
        [[(str "date", str "2024-01-01"), (str "description", str "Coffee Shop"),
          (str "amount", str "4.50")],
         [(str "date", str "INVALID"), (str "description", str "LINE"),
          (str "amount", str "DATA")]] = none :=
  calculate_ending_balance_bad_amount _
    [(str "date", str "INVALID"), (str "description", str "LINE"),
     (str "amount", str "DATA")]
    (by decide) (str "DATA") (by decide) (by decide)

/-- A `filterMap` whose function rejects some list element strictly
shortens the list. -/
theorem length_filterMap_lt_of_none {α β : Type} (f : α → Option β)
    (l : List α) (h : ∃ x ∈ l, f x = none) :
    (l.filterMap f).length < l.length := by
  induction l with
  | nil => simp at h
  | cons x xs ih =>
      obtain ⟨y, hy, hfy⟩ := h
      rcases List.mem_cons.mp hy with rfl | hmem
      · rw [List.filterMap_cons, hfy]
        exact Nat.lt_succ_of_le (List.length_filterMap_le f xs)
      · cases hfx : f x with
        | none =>
            rw [List.filterMap_cons, hfx]
            exact Nat.lt_succ_of_le (List.length_filterMap_le f xs)
        | some b =>
            rw [List.filterMap_cons, hfx]
            simpa [Nat.succ_lt_succ_iff] using ih ⟨y, hmem, hfy⟩

/-- **C6.** A line with fewer than 3 whitespace tokens is silently dropped
— it produces no record and raises no error — so parsing a sequence of
lines containing such a line yields strictly fewer records than there are
lines. -/
theorem parse_drops_short_lines (lines : List (List Char))
    (h : ∃ l ∈ lines, (pySplit l).length < 3) :
    (lines.filterMap parse_line).length < lines.length := by
  apply length_filterMap_lt_of_none
  obtain ⟨l, hl, hlen⟩ := h
  refine ⟨l, hl, ?_⟩
  simp only [parse_line]
  rw [if_neg (by omega)]

/-- Witness for C6: of two lines, one with a single token, only one record
comes out. -/
theorem parse_drops_short_lines_witness :
    (∃ l ∈ [str "2024-01-01 Coffee Shop 4.50", str "Totals"],
        (pySplit l).length < 3) ∧
    ([str "2024-01-01 Coffee Shop 4.50", str "Totals"].filterMap
        parse_line).length < 2 :=
  ⟨⟨str "Totals", by decide, by decide⟩,
   parse_drops_short_lines _ ⟨str "Totals", by decide, by decide⟩⟩

/-! ## Theorems about the statement store -/

/-- **C7.** Writing the empty sequence: `statements[0]` raises `IndexError`
before the file is opened, so no file is produced; the exception is caught
by the handler, which logs it and lets nothing propagate to the caller. -/
theorem save_empty_no_file :
    (save_statements_as_csv []).file = none ∧
    (save_statements_as_csv []).propagated = none ∧
    (save_statements_as_csv []).logged = some (str "IndexError") :=
  ⟨rfl, rfl, rfl⟩

/-- **C8.** A failing statement-store read (`open` raising on a missing or
unreadable file, modelled as `none` content) returns the empty sequence
instead of propagating the error. -/
theorem read_failure_empty : read_statements_from_csv none = [] := rfl

/-- `writerows` raises (and so something is logged) whenever some record
owns a key outside the header. -/
theorem writeRowsUntilError_err_of_extra (keys : List PyStr)
    (l : List Record) (h : ∃ r ∈ l, hasExtraKey keys r) :
    (writeRowsUntilError keys l).2 ≠ none := by
  induction l with
  | nil => simp at h
  | cons r rs ih =>
      obtain ⟨t, ht, hbad⟩ := h
      by_cases hr : hasExtraKey keys r
      · simp [writeRowsUntilError, hr]
      · rcases List.mem_cons.mp ht with rfl | hmem
        · exact absurd hbad hr
        · simpa [writeRowsUntilError, hr] using ih ⟨t, hmem, hbad⟩

/-- **C9.** `save_statements_as_csv` never propagates an exception to its
caller, whatever the input: the `try`/`except Exception` spans the whole
body, so both the `IndexError` of the empty case and the `ValueError` a
heterogeneous sequence provokes inside `writerows` are caught, and the
latter is logged. -/
theorem save_never_propagates (statements : List Record) :
    (save_statements_as_csv statements).propagated = none ∧
    (∀ first rest, statements = first :: rest →
      (∃ r ∈ statements, hasExtraKey (first.map Prod.fst) r) →
      (save_statements_as_csv statements).logged ≠ none) := by
  constructor
  · cases statements <;> rfl
  · rintro first rest rfl h
    simpa [save_statements_as_csv] using
      writeRowsUntilError_err_of_extra (first.map Prod.fst) (first :: rest) h

/-- Witness for C9 on a heterogeneous sequence (second record has field set
`{date, extra}`, differing from the header `date, description, amount`):
nothing propagates and the writer error is logged. -/
theorem save_never_propagates_witness :
    (save_statements_as_csv
        [[(str "date", str "2024-01-01"), (str "description", str "Coffee Shop"),
          (str "amount", str "4.50")],
         [(str "date", str "2024-01-02"), (str "extra", str "e")]]).propagated
        = none ∧
    (save_statements_as_csv
        [[(str "date", str "2024-01-01"), (str "description", str "Coffee Shop"),
          (str "amount", str "4.50")],
         [(str "date", str "2024-01-02"), (str "extra", str "e")]]).logged ≠ none :=
  ⟨(save_never_propagates _).1,
   (save_never_propagates _).2 _ _ rfl
     ⟨[(str "date", str "2024-01-02"), (str "extra", str "e")], by decide, by decide⟩⟩

/-! ## Theorems about the records the parser produces -/

/-- Tokens produced by `str.split()` contain no whitespace. -/
theorem pySplitAux_no_space :
    ∀ (s acc : List Char), (∀ c ∈ acc, isPySpace c = false) →
      ∀ t ∈ pySplitAux acc s, ∀ c ∈ t, isPySpace c = false := by
  intro s
  induction s with
  | nil =>
      intro acc hacc t ht c hc
      by_cases h : acc.isEmpty
      · simp [pySplitAux, h] at ht
      · rw [pySplitAux, if_neg h] at ht
        rw [List.mem_singleton.mp ht] at hc
        exact hacc c (List.mem_reverse.mp hc)
  | cons d rest ih =>
      intro acc hacc t ht c hc
      by_cases hd : isPySpace d
      · by_cases h : acc.isEmpty
        · rw [pySplitAux, if_pos hd, if_pos h] at ht
          exact ih [] (by simp) t ht c hc
        · rw [pySplitAux, if_pos hd, if_neg h] at ht
          rcases List.mem_cons.mp ht with rfl | ht2
          · exact hacc c (List.mem_reverse.mp hc)
          · exact ih [] (by simp) t ht2 c hc
      · rw [pySplitAux, if_neg hd] at ht
        refine ih (d :: acc) ?_ t ht c hc
        intro e he
        rcases List.mem_cons.mp he with rfl | he2
        · exact Bool.eq_false_iff.mpr hd
        · exact hacc e he2

/-- Every token of `pySplit` is whitespace-free. -/
theorem pySplit_no_space (line : List Char) :
    ∀ t ∈ pySplit line, ∀ c ∈ t, isPySpace c = false :=
  pySplitAux_no_space line [] (by simp)

/-- **C10.** Every record the parser produces is a mapping with exactly the
three fields `date`, `description`, `amount`, in that order, and the
`date` and `amount` values contain no whitespace, being single tokens of
a whitespace split. -/
theorem parse_pdf_record_shape (pages : List (List Char)) (r : Record)
    (hr : r ∈ parse_pdf pages) :
    ∃ d desc a,
      r = [(str "date", d), (str "description", desc), (str "amount", a)] ∧
      (∀ c ∈ d, isPySpace c = false) ∧ (∀ c ∈ a, isPySpace c = false) := by
  obtain ⟨recs, hrecs, hrmem⟩ := List.mem_flatten.mp hr
  obtain ⟨text, -, rfl⟩ := List.mem_map.mp hrecs
  obtain ⟨line, -, hparse⟩ := List.mem_filterMap.mp hrmem
  rw [parse_line] at hparse
  by_cases hlen : 3 ≤ (pySplit line).length
  · rw [if_pos hlen, Option.some_inj] at hparse
    refine ⟨(pySplit line).headD [],
      List.intercalate [' '] ((pySplit line).drop 1).dropLast,
      (pySplit line).getLastD [], hparse.symm, ?_, ?_⟩
    · have hmem : (pySplit line).headD [] ∈ pySplit line := by
        cases h : pySplit line with
        | nil => rw [h] at hlen; simp at hlen
        | cons p ps => simp
      exact pySplit_no_space line _ hmem
    · have hne : pySplit line ≠ [] := by
        intro h; rw [h] at hlen; simp at hlen
      have hmem : (pySplit line).getLastD [] ∈ pySplit line := by
        rw [List.getLastD_eq_getLast?, List.getLast?_eq_getLast _ hne]
        exact List.getLast_mem hne
      exact pySplit_no_space line _ hmem
  · rw [if_neg hlen] at hparse
    cases hparse

/-- Witness for C10 on a one-page document with one data line. -/
theorem parse_pdf_record_shape_witness :
    [(str "date", str "2024-01-01"), (str "description", str "Coffee Shop"),
     (str "amount", str "4.50")] ∈ parse_pdf [str "2024-01-01 Coffee Shop 4.50"] ∧
    ∃ d desc a,
      [(str "date", str "2024-01-01"), (str "description", str "Coffee Shop"),
        (str "amount", str "4.50")] =
          [(str "date", d), (str "description", desc), (str "amount", a)] ∧
      (∀ c ∈ d, isPySpace c = false) ∧ (∀ c ∈ a, isPySpace c = false) :=
  ⟨by decide,
   parse_pdf_record_shape [str "2024-01-01 Coffee Shop 4.50"]
     [(str "date", str "2024-01-01"), (str "description", str "Coffee Shop"),
      (str "amount", str "4.50")] (by decide)⟩

/-! ## The end-to-end scenario of the spec (§8) -/

/-- The spec's end-to-end scenario input lines. -/
def scenarioLines : List (List Char) :=
  [str "2024-01-01 Coffee Shop 4.50", str "2024-01-02 Paycheck 1500.00",
   str "not a line"]

/-- The records the parser produces on the scenario lines. -/
def scenarioRecords : List Record := scenarioLines.filterMap parse_line

/-- **C2 (counterexample).** The claimed scenario outcome is false:
`"not a line"` splits into exactly three tokens, so the parser does *not*
drop it — parsing yields 3 records, not 2, and aggregation consequently
fails on `float("line")` instead of returning `1504.50`. -/
theorem scenario_claim_false :
    ¬ (scenarioRecords.length = 2 ∧
       calculate_ending_balance scenarioRecords = some (3009 / 2)) := by
  rintro ⟨h2, -⟩
  exact absurd h2 (by decide)

/-- **C2 (amended).** On the scenario input lines, parsing yields exactly
3 records — the third line `"not a line"` has exactly 3 whitespace tokens
and becomes `{date: "not", description: "a", amount: "line"}` — the
written-then-read-back CSV holds those 3 records under the headers
`date,description,amount`, and aggregation fails (the `ValueError` of
`float("line")` propagates) rather than producing a number. -/
theorem scenario_actual :
    scenarioRecords.length = 3 ∧
    parse_line (str "not a line") =
      some [(str "date", str "not"), (str "description", str "a"),
            (str "amount", str "line")] ∧
    (csvParse (univNewlines
        ((save_statements_as_csv scenarioRecords).file.getD []))).headD []
      = [str "date", str "description", str "amount"] ∧
    read_statements_from_csv (save_statements_as_csv scenarioRecords).file
      = scenarioRecords ∧
    calculate_ending_balance scenarioRecords = none := by
  refine ⟨by decide, by decide, by decide, by decide, by decide⟩

/-! ## Round-trip machinery: unfolding lemmas for the csv reader -/

theorem csvParseAux_nil (q s : Bool) (acc : List Char) (fields : List (List Char)) :
    csvParseAux q s acc fields [] =
      if s then [(acc.reverse :: fields).reverse] else [] := by
  cases q <;> rfl

theorem csvParseAux_quote_quote (s : Bool) (acc : List Char)
    (fields : List (List Char)) (rest : List Char) :
    csvParseAux true s acc fields ('"' :: '"' :: rest) =
      csvParseAux true true ('"' :: acc) fields rest := by
  rfl

theorem csvParseAux_quote_exit (s : Bool) (acc : List Char)
    (fields : List (List Char)) (rest : List Char) (h : rest.head? ≠ some '"') :
    csvParseAux true s acc fields ('"' :: rest) =
      csvParseAux false true acc fields rest := by
  cases rest with
  | nil => rfl
  | cons c r =>
      have hc : c ≠ '"' := by simpa using h
      rw [csvParseAux.eq_def]
      split
      · simp_all
      · rename_i heq
        injection heq with h1 h2
        injection h2 with h3 h4
        exact absurd h3 hc
      · rename_i heq
        injection heq with h1 h2
        subst h2
        rfl
      · rename_i heq
        injection heq with h1 h2
        subst h1
        exact absurd rfl (by assumption)
      · simp_all

theorem csvParseAux_inquote_char (s : Bool) (acc : List Char)
    (fields : List (List Char)) (c : Char) (rest : List Char) (h : c ≠ '"') :
    csvParseAux true s acc fields (c :: rest) =
      csvParseAux true true (c :: acc) fields rest := by
  rw [csvParseAux.eq_def]
  split
  · simp_all
  · simp_all
  · simp_all
  · simp_all
  · simp_all

theorem csvParseAux_comma (s : Bool) (acc : List Char)
    (fields : List (List Char)) (rest : List Char) :
    csvParseAux false s acc fields (',' :: rest) =
      csvParseAux false true [] (acc.reverse :: fields) rest := by
  rfl

theorem csvParseAux_newline (s : Bool) (acc : List Char)
    (fields : List (List Char)) (rest : List Char) :
    csvParseAux false s acc fields ('\n' :: rest) =
      (if s then [(acc.reverse :: fields).reverse] else []) ++
        csvParseAux false false [] [] rest := by
  cases s <;> rfl

theorem csvParseAux_enter_quote (s : Bool) (fields : List (List Char))
    (rest : List Char) :
    csvParseAux false s [] fields ('"' :: rest) =
      csvParseAux true true [] fields rest := by
  rfl

theorem csvParseAux_plain_char (s : Bool) (acc : List Char)
    (fields : List (List Char)) (c : Char) (rest : List Char)
    (h1 : c ≠ ',') (h2 : c ≠ '\n') (h3 : ¬(c = '"' ∧ acc = [])) :
    csvParseAux false s acc fields (c :: rest) =
      csvParseAux false true (c :: acc) fields rest := by
  rw [csvParseAux.eq_def]
  split
  · simp_all
  · simp_all
  · simp_all
  · simp_all
  · rename_i heq; injection heq with h4 h5; subst h4
    rw [if_neg h1, if_neg h2, if_neg h3]
    simp_all

/-! ## Round-trip machinery: writer output characters -/

/-- Serialising a field only adds quote characters. -/
theorem mem_escapeQuotes (c : Char) (f : List Char) (h : c ∈ escapeQuotes f) :
    c ∈ f ∨ c = '"' := by
  induction f with
  | nil => simp [escapeQuotes] at h
  | cons d f ih =>
      rw [escapeQuotes] at h
      by_cases hd : d = '"'
      · rw [if_pos hd] at h
        rcases List.mem_cons.mp h with rfl | h2
        · exact Or.inr rfl
        · rcases List.mem_cons.mp h2 with rfl | h3
          · exact Or.inr rfl
          · rcases ih h3 with h4 | h4
            · exact Or.inl (List.mem_cons_of_mem d h4)
            · exact Or.inr h4
      · rw [if_neg hd] at h
        rcases List.mem_cons.mp h with rfl | h2
        · exact Or.inl (List.mem_cons_self c f)
        · rcases ih h2 with h4 | h4
          · exact Or.inl (List.mem_cons_of_mem d h4)
          · exact Or.inr h4

/-- Characters of a serialised field come from the field or are quotes. -/
theorem mem_quoteField (c : Char) (f : List Char) (h : c ∈ quoteField f) :
    c ∈ f ∨ c = '"' := by
  rw [quoteField] at h
  by_cases hq : needsQuoting f
  · rw [if_pos hq] at h
    rcases List.mem_cons.mp h with rfl | h2
    · exact Or.inr rfl
    · rcases List.mem_append.mp h2 with h3 | h3
      · exact mem_escapeQuotes c f h3
      · exact Or.inr (List.mem_singleton.mp h3)
  · rw [if_neg hq] at h
    exact Or.inl h

theorem univNewlines_cons_ne (c : Char) (h : c ≠ '\r') (l : List Char) :
    univNewlines (c :: l) = c :: univNewlines l := by
  rw [univNewlines.eq_def]
  split <;> simp_all

theorem univNewlines_append_noCR (xs : List Char)
    (h : ∀ c ∈ xs, c ≠ '\r') (rest : List Char) :
    univNewlines (xs ++ rest) = xs ++ univNewlines rest := by
  induction xs with
  | nil => simp
  | cons c l ih =>
      rw [List.cons_append, univNewlines_cons_ne c (h c (by simp)) _,
        ih (fun d hd => h d (by simp [hd]))]
      rfl

/-- Universal-newline translation of one written 3-field row without
carriage returns in the fields: the terminator collapses to `\n`. -/
theorem univNewlines_writeRow3 (f1 f2 f3 : List Char)
    (hcr : ∀ f ∈ [f1, f2, f3], ∀ c ∈ f, c ≠ '\r') (rest : List Char) :
    univNewlines (writeRow [f1, f2, f3] ++ rest) =
      quoteField f1 ++ ',' ::
        (quoteField f2 ++ ',' :: (quoteField f3 ++ '\n' :: univNewlines rest)) := by
  have hrow : writeRow [f1, f2, f3] =
      (quoteField f1 ++ ',' :: (quoteField f2 ++ ',' :: quoteField f3)) ++
        ['\r', '\n'] := by
    rw [writeRow, if_neg (by simp)]
    simp [List.intercalate, List.intersperse]
  have hqf : ∀ f ∈ [f1, f2, f3], ∀ c ∈ quoteField f, c ≠ '\r' := by
    intro f hf c hc
    rcases mem_quoteField c f hc with h | rfl
    · exact hcr f hf c h
    · decide
  have hbody : ∀ c ∈ quoteField f1 ++ ',' :: (quoteField f2 ++ ',' :: quoteField f3),
      c ≠ '\r' := by
    intro c hc
    rcases List.mem_append.mp hc with h | h
    · exact hqf f1 (by simp) c h
    · rcases List.mem_cons.mp h with rfl | h
      · decide
      · rcases List.mem_append.mp h with h | h
        · exact hqf f2 (by simp) c h
        · rcases List.mem_cons.mp h with rfl | h
          · decide
          · exact hqf f3 (by simp) c h
  rw [hrow, List.append_assoc, univNewlines_append_noCR _ hbody]
  have : univNewlines (['\r', '\n'] ++ rest) = '\n' :: univNewlines rest := rfl
  rw [this]
  simp [List.append_assoc]

/-! ## Round-trip machinery: field and row inversion -/

/-- Inside a quoted field the reader undoes the quote doubling. -/
theorem csvParseAux_escaped (f : List Char) :
    ∀ (acc : List Char) (fields : List (List Char)) (rest : List Char),
      rest.head? ≠ some '"' →
      csvParseAux true true acc fields (escapeQuotes f ++ '"' :: rest) =
        csvParseAux false true (f.reverse ++ acc) fields rest := by
  induction f with
  | nil =>
      intro acc fields rest h
      simpa using csvParseAux_quote_exit true acc fields rest h
  | cons c f ih =>
      intro acc fields rest h
      by_cases hc : c = '"'
      · subst hc
        rw [escapeQuotes, if_pos rfl, List.cons_append, List.cons_append,
          csvParseAux_quote_quote, ih ('"' :: acc) fields rest h]
        simp
      · rw [escapeQuotes, if_neg hc, List.cons_append,
          csvParseAux_inquote_char true acc fields c _ hc, ih (c :: acc) fields rest h]
        simp

/-- An unquoted run of plain characters is consumed into the current
field. -/
theorem csvParseAux_plain :
    ∀ f : List Char, (∀ c ∈ f, c ≠ ',' ∧ c ≠ '"' ∧ c ≠ '\n') →
    ∀ (s : Bool) (acc : List Char) (fields : List (List Char)) (rest : List Char),
      csvParseAux false s acc fields (f ++ rest) =
        csvParseAux false (s || !f.isEmpty) (f.reverse ++ acc) fields rest := by
  intro f
  induction f with
  | nil => intro _ s acc fields rest; simp
  | cons c f ih =>
      intro hf s acc fields rest
      obtain ⟨h1, h2, h3⟩ := hf c (by simp)
      rw [List.cons_append,
        csvParseAux_plain_char s acc fields c _ h1 h3 (fun hand => h2 hand.1),
        ih (fun d hd => hf d (by simp [hd])) true (c :: acc) fields rest]
      simp

/-- Whether the serialisation of a field consumes at least one character
for row-started purposes (a quoted field always opens with `"`). -/
def fieldStarted (f : PyStr) : Bool :=
  needsQuoting f || !f.isEmpty

/-- Parsing one serialised field from a field boundary consumes it whole
and restores the original field characters (the following character being
a delimiter, a newline or the end of input). -/
theorem csvParseAux_field (f : List Char)
    (s : Bool) (fields : List (List Char)) (rest : List Char)
    (hrest : rest.head? = some ',' ∨ rest.head? = some '\n' ∨ rest = []) :
    csvParseAux false s [] fields (quoteField f ++ rest) =
      csvParseAux false (s || fieldStarted f) f.reverse fields rest := by
  have hhead : rest.head? ≠ some '"' := by
    rcases hrest with h | h | h <;> simp [h]
  by_cases hq : needsQuoting f
  · rw [quoteField, if_pos hq, List.cons_append, List.append_assoc,
      List.singleton_append, csvParseAux_enter_quote,
      csvParseAux_escaped f [] fields rest hhead]
    have : fieldStarted f = true := by simp [fieldStarted, hq]
    rw [this]
    simp
  · rw [quoteField, if_neg hq]
    have hplain : ∀ c ∈ f, c ≠ ',' ∧ c ≠ '"' ∧ c ≠ '\n' := by
      have h4 : ∀ x ∈ f, ¬x = ',' ∧ ¬x = '"' ∧ ¬x = '\x0d' ∧ ¬x = '\n' := by
        simpa [needsQuoting] using hq
      exact fun c hc => ⟨(h4 c hc).1, (h4 c hc).2.1, (h4 c hc).2.2.2⟩
    rw [csvParseAux_plain f hplain s [] fields rest]
    have : fieldStarted f = !f.isEmpty := by simp [fieldStarted, hq]
    rw [this]
    simp

/-- Parsing one translated 3-field row emits exactly those three fields. -/
theorem csvParse_row3 (f1 f2 f3 : List Char) (tail : List Char) :
    csvParseAux false false [] []
        (quoteField f1 ++ ',' ::
          (quoteField f2 ++ ',' :: (quoteField f3 ++ '\n' :: tail))) =
      [f1, f2, f3] :: csvParseAux false false [] [] tail := by
  rw [csvParseAux_field f1, csvParseAux_comma, csvParseAux_field f2,
    csvParseAux_comma, csvParseAux_field f3, csvParseAux_newline]
  all_goals simp

/-- Parsing the translated concatenation of written 3-field rows recovers
exactly those rows. -/
theorem csvParse_flatten_rows3 (rows : List (List PyStr))
    (h3 : ∀ row ∈ rows, ∃ a b c, row = [a, b, c])
    (hcr : ∀ row ∈ rows, ∀ f ∈ row, ∀ ch ∈ f, ch ≠ '\r') :
    csvParse (univNewlines ((rows.map writeRow).flatten)) = rows := by
  induction rows with
  | nil => rfl
  | cons row rows ih =>
      obtain ⟨a, b, c, rfl⟩ := h3 row (by simp)
      rw [List.map_cons, List.flatten_cons]
      rw [csvParse, univNewlines_writeRow3 a b c (hcr _ (by simp)), csvParse_row3]
      rw [show csvParseAux false false [] []
            (univNewlines ((rows.map writeRow).flatten)) =
          csvParse (univNewlines ((rows.map writeRow).flatten)) from rfl]
      rw [ih (fun r hr => h3 r (by simp [hr])) (fun r hr => hcr r (by simp [hr]))]

/-! ## Round-trip machinery: records, header, writer bookkeeping -/

/-- A record whose key list is exactly `date, description, amount` is a
three-pair association list. -/
theorem record_shape {r : Record}
    (h : r.map Prod.fst = [str "date", str "description", str "amount"]) :
    ∃ v1 v2 v3,
      r = [(str "date", v1), (str "description", v2), (str "amount", v3)] := by
  rcases r with _ | ⟨⟨k1, v1⟩, _ | ⟨⟨k2, v2⟩, _ | ⟨⟨k3, v3⟩, r4⟩⟩⟩
  · simp at h
  · simp at h
  · simp at h
  · simp only [List.map_cons, List.cons.injEq] at h
    obtain ⟨e1, e2, e3, h4⟩ := h
    subst e1; subst e2; subst e3
    exact ⟨v1, v2, v3, by rw [List.map_eq_nil_iff.mp h4]⟩

/-- `_dict_to_list` on a record in header order returns its values. -/
theorem dict_to_list_shape (v1 v2 v3 : PyStr) :
    dict_to_list [str "date", str "description", str "amount"]
      [(str "date", v1), (str "description", v2), (str "amount", v3)] =
      [v1, v2, v3] := by
  have h1 : (str "date" == str "date") = true := by decide
  have h2 : (str "description" == str "date") = false := by decide
  have h3 : (str "description" == str "description") = true := by decide
  have h4 : (str "amount" == str "date") = false := by decide
  have h5 : (str "amount" == str "description") = false := by decide
  have h6 : (str "amount" == str "amount") = true := by decide
  simp [dict_to_list, List.lookup, h1, h2, h3, h4, h5, h6]

/-- A record whose keys all come from `keys` has no extra key. -/
theorem hasExtraKey_self (keys : List PyStr) (r : Record)
    (h : r.map Prod.fst = keys) : hasExtraKey keys r = false := by
  subst h
  rw [hasExtraKey, List.any_eq_false]
  intro kv hkv
  have hc : (r.map Prod.fst).contains kv.1 = true :=
    List.elem_eq_true_of_mem (List.mem_map_of_mem Prod.fst hkv)
  rw [hc]
  decide

/-- `writerows` on a sequence without stray keys writes every row and
raises nothing. -/
theorem writeRowsUntilError_ok (keys : List PyStr) :
    ∀ l : List Record, (∀ r ∈ l, hasExtraKey keys r = false) →
      writeRowsUntilError keys l =
        ((l.map fun r => writeRow (dict_to_list keys r)).flatten, none) := by
  intro l h
  induction l with
  | nil => rfl
  | cons r rs ih =>
      rw [writeRowsUntilError, h r (by simp),
        ih (fun t ht => h t (by simp [ht]))]
      simp

/-! ## The statement-store round trip (C5) -/

/-- Reading back the written rows of well-shaped records restores them. -/
theorem zip_rows (l : List Record)
    (hk : ∀ r ∈ l,
      r.map Prod.fst = [str "date", str "description", str "amount"]) :
    ((l.map (dict_to_list [str "date", str "description", str "amount"])).filter
        (fun row => !row.isEmpty)).map
      (fun row => ([str "date", str "description", str "amount"]).zip row) = l := by
  induction l with
  | nil => rfl
  | cons r rs ih =>
      obtain ⟨v1, v2, v3, rfl⟩ := record_shape (hk r (by simp))
      rw [List.map_cons, dict_to_list_shape, List.filter_cons_of_pos (by simp),
        List.map_cons, ih (fun t ht => hk t (by simp [ht]))]
      simp [List.zip]

/-- **C5 (amended).** Writing any non-empty sequence of records with field
list `date, description, amount` whose values contain no carriage return,
then reading the same file back, restores exactly the original records
(same count, same string field values).  (With a carriage return the text
layer's universal-newline translation corrupts the value — see the
counterexample.) -/
theorem save_read_roundtrip (statements : List Record)
    (hne : statements ≠ [])
    (hkeys : ∀ r ∈ statements,
      r.map Prod.fst = [str "date", str "description", str "amount"])
    (hcr : ∀ r ∈ statements, ∀ kv ∈ r, ∀ c ∈ kv.2, c ≠ '\r') :
    read_statements_from_csv (save_statements_as_csv statements).file
      = statements := by
  obtain ⟨first, rest, rfl⟩ := List.exists_cons_of_ne_nil hne
  have hfirst := hkeys first (by simp)
  have hok : ∀ r ∈ first :: rest, hasExtraKey (first.map Prod.fst) r = false := by
    intro r hr
    rw [hfirst]
    exact hasExtraKey_self _ r (hkeys r hr)
  have hsave : (save_statements_as_csv (first :: rest)).file =
      some ((([str "date", str "description", str "amount"] ::
          ((first :: rest).map
            (dict_to_list [str "date", str "description", str "amount"]))).map
        writeRow).flatten) := by
    rw [save_statements_as_csv, writeRowsUntilError_ok _ _ hok, hfirst]
    simp [List.map_map, Function.comp_def]
  rw [hsave, read_statements_from_csv]
  have hshape : ∀ r ∈ first :: rest, ∃ v1 v2 v3,
      r = [(str "date", v1), (str "description", v2), (str "amount", v3)] :=
    fun r hr => record_shape (hkeys r hr)
  have hrows3 : ∀ row ∈ [str "date", str "description", str "amount"] ::
      ((first :: rest).map
        (dict_to_list [str "date", str "description", str "amount"])),
      ∃ a b c, row = [a, b, c] := by
    intro row hrow
    rcases List.mem_cons.mp hrow with rfl | h
    · exact ⟨_, _, _, rfl⟩
    · obtain ⟨r, hr, rfl⟩ := List.mem_map.mp h
      obtain ⟨v1, v2, v3, rfl⟩ := hshape r hr
      exact ⟨v1, v2, v3, dict_to_list_shape v1 v2 v3⟩
  have hcrrows : ∀ row ∈ [str "date", str "description", str "amount"] ::
      ((first :: rest).map
        (dict_to_list [str "date", str "description", str "amount"])),
      ∀ f ∈ row, ∀ ch ∈ f, ch ≠ '\r' := by
    intro row hrow
    rcases List.mem_cons.mp hrow with rfl | h
    · decide
    · obtain ⟨r, hr, rfl⟩ := List.mem_map.mp h
      obtain ⟨v1, v2, v3, hreq⟩ := hshape r hr
      have hv := hcr r hr
      rw [hreq] at hv
      rw [hreq, dict_to_list_shape]
      intro f hf ch hch
      rcases List.mem_cons.mp hf with rfl | hf2
      · exact hv (str "date", f) (by simp) ch hch
      rcases List.mem_cons.mp hf2 with rfl | hf3
      · exact hv (str "description", f) (by simp) ch hch
      rcases List.mem_cons.mp hf3 with rfl | hf4
      · exact hv (str "amount", f) (by simp) ch hch
      · cases hf4
  rw [dictRead, csvParse_flatten_rows3 _ hrows3 hcrrows]
  exact zip_rows _ hkeys

/-- Witness for the amended C5 at a concrete two-record sequence whose
values exercise spaces, commas and quotes (but no carriage returns). -/
theorem save_read_roundtrip_witness :
    read_statements_from_csv
        (save_statements_as_csv
          [[(str "date", str "2024-01-01"),
            (str "description", str "Coffee, \"the\" Shop"),
            (str "amount", str "4.50")],
           [(str "date", str "2024-01-02"), (str "description", str "Paycheck"),
            (str "amount", str "1500.00")]]).file
      = [[(str "date", str "2024-01-01"),
          (str "description", str "Coffee, \"the\" Shop"),
          (str "amount", str "4.50")],
         [(str "date", str "2024-01-02"), (str "description", str "Paycheck"),
          (str "amount", str "1500.00")]] :=
  save_read_roundtrip _ (by decide) (by decide) (by decide)

/-- **C5 (counterexample).** With arbitrary string field values the round
trip is not the identity: a value holding a carriage return comes back
changed, because the read path opens the file in text mode without
`newline=''`, and universal-newline translation rewrites the `\r` inside
the quoted field to `\n`.  One record goes in and one comes back, but its
`description` value differs from the one written. -/
theorem save_read_not_roundtrip :
    read_statements_from_csv
        (save_statements_as_csv
          [[(str "date", str "2024-01-01"), (str "description", str "a\rb"),
            (str "amount", str "4.50")]]).file
      = [[(str "date", str "2024-01-01"), (str "description", str "a\nb"),
          (str "amount", str "4.50")]] ∧
    read_statements_from_csv
        (save_statements_as_csv
          [[(str "date", str "2024-01-01"), (str "description", str "a\rb"),
            (str "amount", str "4.50")]]).file
      ≠ [[(str "date", str "2024-01-01"), (str "description", str "a\rb"),
          (str "amount", str "4.50")]] :=
  ⟨by decide, by decide⟩
